import Mathlib

/-!
Verification development for the tiltr/testilias scoring and comparison core.

Shallow embedding of:
* `src/docker/machine/app/tiltr/data/result.py` (`MaybeDecimal`, rounding and
  score formatting helpers, `Result.check_against`, `_normalize_json`),
* `src/docker/machine/app/tiltr/question/questions/matching.py`
  (`_one_to_one_correct`, `_compute_maximum_score`),
* `src/robot/files/testilias/question/questions/cloze.py`
  (gap `get_score` functions, `ClozeQuestion.compute_score_by_indices`).

Python `decimal.Decimal` is modelled as a finite decimal: a sign flag, a
natural-number coefficient and a base-10 exponent.  This matches
`Decimal.as_tuple()` for all finite values (the special values NaN/Infinity
are outside the model; every code path relevant to the claims treats them
the same as the modelled behaviour).  Context precision limits are not
modelled: arithmetic is exact, as it is for the small score values the
program handles.
-/

/-! ## Decimal model -/

/-- A finite decimal as Python's `decimal.Decimal` represents it: sign flag
(`true` = negative), integer coefficient, base-10 exponent.
`Decimal("12.50")` is `⟨false, 1250, -2⟩`. -/
structure Dec where
  sign : Bool
  coeff : Nat
  exp : Int
deriving DecidableEq

/-- Numeric value of a `Dec`. -/
def Dec.toRat (d : Dec) : ℚ :=
  (if d.sign then -1 else 1) * (d.coeff : ℚ) * (10 : ℚ) ^ d.exp

/-- The character for one decimal digit. -/
def digitChar (n : Nat) : Char := Char.ofNat (48 + n)

/-- Numeric value of a digit character. -/
def digitVal (c : Char) : Nat := c.toNat - 48

/-- Big-endian digit characters of `n`, with explicit fuel (structural
recursion so the kernel can evaluate it). -/
def natDigitsAux : Nat → Nat → List Char
  | 0, _ => []
  | fuel + 1, n => if n = 0 then [] else natDigitsAux fuel (n / 10) ++ [digitChar (n % 10)]

/-- Big-endian digit characters of `n`; `0` renders as `"0"`. -/
def natDigitChars (n : Nat) : List Char :=
  if n = 0 then ['0'] else natDigitsAux (n + 1) n

/-- Numeric value of a big-endian list of digit characters. -/
def digitsToNat (cs : List Char) : Nat :=
  cs.foldl (fun a c => 10 * a + digitVal c) 0

/-- Consume one optional leading sign character; returns `true` for `'-'`. -/
def parseSignChar : List Char → Bool × List Char
  | '-' :: cs => (true, cs)
  | '+' :: cs => (false, cs)
  | cs => (false, cs)

/-- Exponent characters as Python prints them in scientific notation:
always with an explicit sign, e.g. `E+3`, `E-7`. -/
def expSignChars (a : Int) : List Char :=
  (if a < 0 then '-' else '+') :: natDigitChars a.natAbs

/-- `str(Decimal)`, the unsigned part: the to-scientific-string algorithm
of the decimal specification that CPython's `Decimal.__str__` implements,
applied to coefficient digits `natDigitChars c` and exponent `e`. -/
def formatDecBody (c : Nat) (e : Int) : List Char :=
  if e ≤ 0 ∧ -6 ≤ e + ((natDigitChars c).length : Int) - 1 then
    if e = 0 then natDigitChars c
    else if -e < ((natDigitChars c).length : Int) then
      (natDigitChars c).take (((natDigitChars c).length : Int) + e).toNat ++
        '.' :: (natDigitChars c).drop (((natDigitChars c).length : Int) + e).toNat
    else
      '0' :: '.' :: (List.replicate (-e - ((natDigitChars c).length : Int)).toNat '0' ++
        natDigitChars c)
  else
    match natDigitChars c with
    | [] => []
    | c₀ :: rest =>
      (if rest = [] then [c₀] else c₀ :: '.' :: rest) ++
        'E' :: expSignChars (e + ((natDigitChars c).length : Int) - 1)

/-- `str(Decimal)`: optional sign, then the body. -/
def formatDecChars (d : Dec) : List Char :=
  (if d.sign then ['-'] else []) ++ formatDecBody d.coeff d.exp

/-- `str(Decimal)` on `String`. -/
def formatDec (d : Dec) : String := ⟨formatDecChars d⟩

/-- Parse the optional exponent suffix (`e`/`E`, optional sign, digits);
the whole rest of the input must be consumed. -/
def parseExpPart : List Char → Option Int
  | [] => some 0
  | c :: cs =>
    if c = 'e' ∨ c = 'E' then
      let p := parseSignChar cs
      let q := p.2.span Char.isDigit
      if q.1 = [] ∨ q.2 ≠ [] then none
      else some ((if p.1 then -1 else 1) * (digitsToNat q.1 : Int))
    else none

/-- `Decimal(text)` for finite decimals: optional sign, integer digits,
optional fractional part, optional exponent — the numeric grammar of
CPython's `decimal` module (whitespace/underscore stripping and the
special values NaN/Infinity are outside the model).  After the
integer digits and a point, the fractional digits and the exponent: -/
def parseDecFrac (sg : Bool) (ip : List Char) : List Char × List Char → Option Dec
  | (fp, rest) =>
    if ip = [] ∧ fp = [] then none
    else
      match parseExpPart rest with
      | some e => some ⟨sg, digitsToNat (ip ++ fp), e - (fp.length : Int)⟩
      | none => none

/-- Dispatch on what follows the integer digits. -/
def parseDecAfterSpan (sg : Bool) : List Char × List Char → Option Dec
  | (ip, '.' :: cs₂) => parseDecFrac sg ip (cs₂.span Char.isDigit)
  | (ip, rest) =>
    if ip = [] then none
    else
      match parseExpPart rest with
      | some e => some ⟨sg, digitsToNat ip, e⟩
      | none => none

/-- The digit/point/exponent tail after the optional sign. -/
def parseDecTail (sg : Bool) (cs : List Char) : Option Dec :=
  parseDecAfterSpan sg (cs.span Char.isDigit)

/-- `Decimal(text)`: sign, then the digit/point/exponent tail. -/
def parseDecChars (cs : List Char) : Option Dec :=
  parseDecTail (parseSignChar cs).1 (parseSignChar cs).2

/-- `Decimal(text)` on `String`. -/
def parseDec (s : String) : Option Dec := parseDecChars s.data

/-! ## MaybeDecimal (result.py lines 26-58) -/

/-- `MaybeDecimal` wraps an optional decimal; the invalid state is `none`.
Construction from text never fails: parse failure yields the invalid
state (the `except` branch of `MaybeDecimal.__init__`). -/
abbrev MaybeDecimal := Option Dec

/-- `MaybeDecimal(s)` for a text argument. -/
def MaybeDecimal.ofText (s : String) : MaybeDecimal := parseDec s

/-- `MaybeDecimal.valid`. -/
def MaybeDecimal.valid (m : MaybeDecimal) : Bool := m.isSome

/-- `MaybeDecimal.__str__`. -/
def MaybeDecimal.str : MaybeDecimal → String
  | none => "not-a-number"
  | some d => formatDec d

/-- `MaybeDecimal.encode`: `(True, str(d))` is `some (str d)`, the
one-element tuple `(False,)` is `none`. -/
def MaybeDecimal.encode : MaybeDecimal → Option String
  | some d => some (formatDec d)
  | none => none

/-- `MaybeDecimal.decode`. -/
def MaybeDecimal.decode : Option String → MaybeDecimal
  | some t => MaybeDecimal.ofText t
  | none => none

/-! ## Rounding and formatting (result.py lines 98-149) -/

/-- `Decimal.quantize(Decimal("0.01"), rounding=ROUND_CEILING)`: rescale to
exponent `-2`, rounding toward plus infinity.  Per the decimal
specification the result keeps the operand's sign. -/
def quantizeCeil2 (d : Dec) : Dec :=
  if 0 ≤ d.exp + 2 then ⟨d.sign, d.coeff * 10 ^ (d.exp + 2).toNat, -2⟩
  else
    let p : Nat := 10 ^ (-(d.exp + 2)).toNat
    if d.sign then ⟨true, d.coeff / p, -2⟩
    else ⟨false, d.coeff / p + (if d.coeff % p = 0 then 0 else 1), -2⟩

/-- `_round_to_2_digits(x, ROUND_CEILING)` as used by
`Result.round_up_to_2_digits`. -/
def round_up_to_2_digits (x : MaybeDecimal) : MaybeDecimal :=
  match x with
  | some d => some (quantizeCeil2 d)
  | none => x

/-- Remove all trailing occurrences of `c` (Python `str.rstrip(c)`). -/
def rstripChar (c : Char) (s : List Char) : List Char :=
  (s.reverse.dropWhile (fun x => x = c)).reverse

/-- `Result.format_score`: ceiling-round to 2 digits, print, then strip
trailing zeros after the decimal point and a then-trailing point. -/
def format_score (x : MaybeDecimal) : String :=
  let s := (round_up_to_2_digits x).str
  if s.data.contains '.' then
    let s₁ := rstripChar '0' s.data
    let s₂ := if s₁.getLast? = some '.' then rstripChar '.' s₁ else s₁
    ⟨s₂⟩
  else s

/-! ## Workarounds (settings.py collaborator; only the flags the embedded
code consumes) -/

/-- The `Workarounds` flag bag, with the free-form `normalize` text
transform applied before comparison. -/
structure Workarounds where
  normalize : String → String
  ignore_wrong_results_in_results_tab : Bool
  inaccurate_percentage_rounding : Bool
  identical_scoring_ignores_comparator : Bool
  allow_unreachable_max_scores : Bool

/-! ## Cloze scoring (cloze.py) -/

/-- `ClozeComparator`. -/
inductive ClozeComparator where
  | ignore_case
  | case_sensitive
deriving DecidableEq

/-- `ClozeType`. -/
inductive ClozeType where
  | text
  | select
  | numeric
deriving DecidableEq

/-- Python `str.casefold`, modelled for the ASCII texts the claims use. -/
def casefold (s : String) : String := s.toLower

/-- One cloze gap with its scoring data.  Numeric bounds and scores are the
numeric values of the parsed `Decimal`s (only comparisons and sums are
performed on them, which `ℚ` models exactly). -/
inductive ClozeGap where
  | text (options : List (String × ℚ)) (comparator : ClozeComparator)
  | select (options : List (String × ℚ))
  | numeric (lower upper score : ℚ)
deriving DecidableEq

/-- `options.get(text, Decimal(0))`: exact dictionary lookup. -/
def optionsGet (options : List (String × ℚ)) (t : String) : ℚ :=
  ((options.find? (fun kv => kv.1 = t)).map (fun kv => kv.2)).getD 0

/-- `get_score` of the three gap classes: text gaps look up under the
comparator (first case-folded match in insertion order for
`ignore_case`), select gaps look up exactly, numeric gaps award the flat
score iff the text parses as a decimal inside the inclusive range —
`InvalidOperation` is caught and yields 0, so no text ever raises. -/
def ClozeGap.get_score : ClozeGap → String → ℚ
  | .text options comparator, t =>
    match comparator with
    | .case_sensitive => optionsGet options t
    | .ignore_case =>
      (((options.find? (fun kv => casefold kv.1 = casefold t)).map (fun kv => kv.2)).getD 0)
  | .select options, t => optionsGet options t
  | .numeric lower upper score, t =>
    match parseDec t with
    | some v => if lower ≤ v.toRat ∧ v.toRat ≤ upper then score else 0
    | none => 0

/-- `get_type` of the three gap classes. -/
def ClozeGap.get_type : ClozeGap → ClozeType
  | .text _ _ => ClozeType.text
  | .select _ => ClozeType.select
  | .numeric _ _ _ => ClozeType.numeric

/-- `ClozeQuestion`: the fields `compute_score_by_indices` reads.  `gaps`
is the index-ordered gap dictionary. -/
structure ClozeQuestion where
  identical_scoring : Bool
  comparator : ClozeComparator
  gaps : List ClozeGap

/-- `self.gaps[index]`; answer indices are assumed to reference existing
gaps (a missing index is a `KeyError` in the source, outside the model). -/
def ClozeQuestion.gapAt (q : ClozeQuestion) (index : Nat) : ClozeGap :=
  q.gaps.getD index (ClozeGap.select [])

/-- The `normalized = ...` block of the loop body: the answer value is
case-folded when the question comparator is `ignore_case` and the
`identical_scoring_ignores_comparator` workaround is off. -/
def normalizeAnswer (q : ClozeQuestion) (ws : Workarounds) (text : String) : String :=
  if ¬ws.identical_scoring_ignores_comparator ∧ q.comparator = ClozeComparator.ignore_case
  then casefold text else text

/-- The loop body of `compute_score_by_indices`, with the `given_answers`
set threaded explicitly.  When `identical_scoring` is false, the
normalized answer value is checked against every value seen earlier in
the iteration — one set shared by all gaps — and repeat occurrences are
skipped. -/
def computeScoreAux (q : ClozeQuestion) (ws : Workarounds) :
    List (Nat × String) → List String → ℚ
  | [], _ => 0
  | (index, text) :: rest, given =>
    if q.identical_scoring then
      (q.gapAt index).get_score text + computeScoreAux q ws rest given
    else
      let normalized := normalizeAnswer q ws text
      if normalized ∈ given then computeScoreAux q ws rest given
      else (q.gapAt index).get_score text + computeScoreAux q ws rest (normalized :: given)

/-- `ClozeQuestion.compute_score_by_indices`; `answers` is the answer
dictionary in insertion order. -/
def compute_score_by_indices (q : ClozeQuestion) (answers : List (Nat × String))
    (ws : Workarounds) : ℚ :=
  computeScoreAux q ws answers []

/-! ## Matching scoring (matching.py) -/

/-- `MatchingMultiplicity`. -/
inductive MatchingMultiplicity where
  | one_to_one
  | many_to_many
deriving DecidableEq

/-- The `scores` dictionary: (definition id, term id) → decimal score, in
insertion order with unique keys. -/
abbrev ScoreTable := List ((String × String) × ℚ)

/-- `scores.get((d, t), Decimal(0))` where the definition slot may be the
`None` row added by `_one_to_one_correct` (never a dictionary key). -/
def scoresGet (scores : ScoreTable) (d : Option String) (t : String) : ℚ :=
  match d with
  | none => 0
  | some dd => ((scores.find? (fun kv => kv.1 = (dd, t))).map (fun kv => kv.2)).getD 0

/-- Distinct definition ids of the table (the `definitions` set). -/
def scoreDefs (scores : ScoreTable) : List String :=
  (scores.map (fun kv => kv.1.1)).dedup

/-- Distinct term ids of the table (the `terms` set). -/
def scoreTerms (scores : ScoreTable) : List String :=
  (scores.map (fun kv => kv.1.2)).dedup

/-- `max(Decimal(0), max(scores.values()))` (as a fold, which agrees on
the non-empty tables the function is called with). -/
def scoresMax (scores : ScoreTable) : ℚ :=
  scores.foldl (fun a kv => max a kv.2) 0

/-- One candidate output of `scipy.optimize.linear_sum_assignment`: a list
pairing chosen rows (definitions or the extra `None` row) with distinct
chosen columns (terms). -/
abbrev Assignment := List (Option String × String)

/-- All ordered selections of `k` distinct positions of `l`. -/
def pickOrders [DecidableEq α] : Nat → List α → List (List α)
  | 0, _ => [[]]
  | k + 1, l => l.flatMap (fun x => (pickOrders k (l.erase x)).map (fun xs => x :: xs))

/-- All maximal one-to-one row/column pairings of the cost matrix: every
choice of `min(rows, cols)` rows paired with as many distinct columns.
`linear_sum_assignment` returns a minimum-cost member of this list. -/
def assignmentCandidates (rows : List (Option String)) (cols : List String) :
    List Assignment :=
  let k := min rows.length cols.length
  (pickOrders k rows).flatMap fun rs =>
    (pickOrders k cols).map fun cs => rs.zip cs

/-- Select a minimum-cost element (the solver's choice; any minimum gives
the same summed table score, so the model's pick is as good as scipy's). -/
def pickMinCost (cost : Assignment → ℚ) : List Assignment → Option Assignment
  | [] => none
  | x :: xs => some (xs.foldl (fun b a => if cost a < cost b then a else b) x)

/-- Total cost of an assignment over the matrix
`cost[d][t] = m - scores.get((d, t), 0)` (exact arithmetic; the source's
float64 conversion is exact for the score magnitudes in use). -/
def costSum (scores : ScoreTable) (m : ℚ) (a : Assignment) : ℚ :=
  (a.map (fun rc => m - scoresGet scores rc.1 rc.2)).sum

/-- Sum of table scores over the pairs of an assignment — the
accumulation loop at the end of `_one_to_one_correct`. -/
def scoreSum (scores : ScoreTable) (a : Assignment) : ℚ :=
  (a.map (fun rc => scoresGet scores rc.1 rc.2)).sum

/-- `_one_to_one_correct`: rows are the definitions plus one extra `None`
row ("always allow not assigning a term at all"), columns are the terms;
solve the minimum-cost assignment and sum the table scores of the chosen
pairs. -/
def one_to_one_correct (scores : ScoreTable) : ℚ :=
  match pickMinCost (costSum scores (scoresMax scores))
      (assignmentCandidates ((scoreDefs scores).map some ++ [none]) (scoreTerms scores)) with
  | some a => scoreSum scores a
  | none => 0

/-- Replace the binding of `d` (or append it) in an association list —
one `definition_scores[definition] = ...` store. -/
def alistStore (acc : List (String × ℚ)) (d : String) (v : ℚ) : List (String × ℚ) :=
  if acc.any (fun kv => kv.1 = d) then
    acc.map (fun kv => if kv.1 = d then (d, v) else kv)
  else acc ++ [(d, v)]

/-- Current value of `definition_scores[d]` with the `defaultdict(int)`
default of 0. -/
def alistGetD (acc : List (String × ℚ)) (d : String) : ℚ :=
  ((acc.find? (fun kv => kv.1 = d)).map (fun kv => kv.2)).getD 0

/-- `_one_to_one_simple` ("simple, but not correct"): per definition,
independently the max of 0 and its best pair score; then sum. -/
def one_to_one_simple (scores : ScoreTable) : ℚ :=
  (scores.foldl
    (fun acc kv => alistStore acc kv.1.1 (max (max (alistGetD acc kv.1.1) kv.2) 0))
    []).foldl (fun a kv => a + kv.2) 0

/-- `_compute_maximum_score`: dispatch on emptiness and multiplicity; the
many-to-many branch is `sum(max(s, 0) for s in scores.values())`. -/
def compute_maximum_score (scores : ScoreTable) (multiplicity : MatchingMultiplicity)
    (ws : Workarounds) : ℚ :=
  if scores.isEmpty then 0
  else
    match multiplicity with
    | .one_to_one =>
      if ws.allow_unreachable_max_scores then one_to_one_simple scores
      else one_to_one_correct scores
    | .many_to_many => (scores.map (fun kv => max kv.2 0)).sum

/-! ## JSON canonicalization (`_normalize_json`, result.py lines 86-90)

`json.loads`/`json.dumps` are modelled for the value subset the compared
properties use: objects, arrays, integer numbers, escape-free strings,
`true`/`false`/`null`.  Python 3 dictionaries preserve insertion order, so
a re-serialized object keeps the key order of its source text (a repeated
key keeps the first occurrence's position with the last occurrence's
value); `json.dumps` uses the default separators and does not sort keys. -/

/-- A JSON value as `json.loads` builds it. -/
inductive JValue where
  | jnull
  | jbool (b : Bool)
  | jnum (n : Int)
  | jstr (s : String)
  | jarr (elems : List JValue)
  | jobj (members : List (String × JValue))

/-- Skip JSON whitespace. -/
def skipWs (cs : List Char) : List Char :=
  cs.dropWhile (fun c => c = ' ' ∨ c = '\t' ∨ c = '\n' ∨ c = '\r')

/-- Read a string body up to the closing quote (escape-free subset). -/
def takeJStr : List Char → Option (List Char × List Char)
  | [] => none
  | '"' :: rest => some ([], rest)
  | c :: rest =>
    if c = '\\' then none
    else (takeJStr rest).map (fun p => (c :: p.1, p.2))

/-- Read a JSON integer: optional `-`, digits, no leading zero, and no
fraction/exponent (floats are outside the modelled subset). -/
def parseJNum (cs : List Char) : Option (Int × List Char) :=
  let p := match cs with
    | '-' :: rest => (true, rest)
    | rest => (false, rest)
  let q := p.2.span Char.isDigit
  if q.1 = [] then none
  else if q.1.head? = some '0' ∧ q.1.length ≠ 1 then none
  else
    match q.2 with
    | c :: _ => if c = '.' ∨ c = 'e' ∨ c = 'E' then none
                else some ((if p.1 then -(digitsToNat q.1 : Int) else (digitsToNat q.1 : Int)), q.2)
    | [] => some ((if p.1 then -(digitsToNat q.1 : Int) else (digitsToNat q.1 : Int)), q.2)

/-- Store one parsed object member the way `dict` assignment does: a
repeated key keeps its first position and takes the new value. -/
def objInsert (ms : List (String × JValue)) (k : String) (v : JValue) :
    List (String × JValue) :=
  if ms.any (fun kv => kv.1 = k) then
    ms.map (fun kv => if kv.1 = k then (k, v) else kv)
  else ms ++ [(k, v)]

mutual

/-- `json.loads` value parser (fuel-indexed so the kernel can run it; the
fuel is at least the input length wherever it is used, which always
suffices because every recursive call first consumes a character). -/
def parseJVal : Nat → List Char → Option (JValue × List Char)
  | 0, _ => none
  | fuel + 1, cs =>
    match skipWs cs with
    | [] => none
    | c :: rest =>
      if c = '\x7b' then
        match skipWs rest with
        | '\x7d' :: rest₂ => some (JValue.jobj [], rest₂)
        | rest₁ => parseJMembers fuel rest₁ []
      else if c = '[' then
        match skipWs rest with
        | ']' :: rest₂ => some (JValue.jarr [], rest₂)
        | rest₁ => parseJElems fuel rest₁ []
      else if c = '"' then
        (takeJStr rest).map (fun p => (JValue.jstr ⟨p.1⟩, p.2))
      else if c = 't' ∧ rest.take 3 = ['r', 'u', 'e'] then
        some (JValue.jbool true, rest.drop 3)
      else if c = 'f' ∧ rest.take 4 = ['a', 'l', 's', 'e'] then
        some (JValue.jbool false, rest.drop 4)
      else if c = 'n' ∧ rest.take 3 = ['u', 'l', 'l'] then
        some (JValue.jnull, rest.drop 3)
      else
        (parseJNum (c :: rest)).map (fun p => (JValue.jnum p.1, p.2))

/-- Members of an object after `{`, accumulating in insertion order. -/
def parseJMembers : Nat → List Char → List (String × JValue) →
    Option (JValue × List Char)
  | 0, _, _ => none
  | fuel + 1, cs, acc =>
    match cs with
    | '"' :: rest =>
      match takeJStr rest with
      | some (kchars, rest₁) =>
        match skipWs rest₁ with
        | ':' :: rest₂ =>
          match parseJVal fuel rest₂ with
          | some (v, rest₃) =>
            let acc₁ := objInsert acc ⟨kchars⟩ v
            match skipWs rest₃ with
            | ',' :: rest₄ => parseJMembers fuel (skipWs rest₄) acc₁
            | '\x7d' :: rest₄ => some (JValue.jobj acc₁, rest₄)
            | _ => none
          | none => none
        | _ => none
      | none => none
    | _ => none

/-- Elements of an array after `[`. -/
def parseJElems : Nat → List Char → List JValue → Option (JValue × List Char)
  | 0, _, _ => none
  | fuel + 1, cs, acc =>
    match parseJVal fuel cs with
    | some (v, rest) =>
      match skipWs rest with
      | ',' :: rest₁ => parseJElems fuel rest₁ (acc ++ [v])
      | ']' :: rest₁ => some (JValue.jarr (acc ++ [v]), rest₁)
      | _ => none
    | none => none

end

/-- `json.loads`: parse one value and require only whitespace after it. -/
def loadsJson (s : String) : Option JValue :=
  match parseJVal (s.data.length + 1) s.data with
  | some (v, rest) => if skipWs rest = [] then some v else none
  | none => none

/-- Decimal text of an `Int`, as Python prints it. -/
def intChars (n : Int) : List Char :=
  (if n < 0 then ['-'] else []) ++ natDigitChars n.natAbs

/-- `json.dumps` with the default separators `", "` and `": "` and no key
sorting (fuel-indexed; any fuel at least the value's depth is exact, and
the uses below always supply enough). -/
def jdumpF : Nat → JValue → String
  | 0, _ => ""
  | fuel + 1, v =>
    match v with
    | JValue.jnull => "null"
    | JValue.jbool b => if b then "true" else "false"
    | JValue.jnum n => ⟨intChars n⟩
    | JValue.jstr s => "\"" ++ s ++ "\""
    | JValue.jarr es => "[" ++ String.intercalate ", " (es.map (jdumpF fuel)) ++ "]"
    | JValue.jobj ms =>
      "\x7b" ++
        String.intercalate ", "
          (ms.map (fun kv => "\"" ++ kv.1 ++ "\": " ++ jdumpF fuel kv.2)) ++
      "\x7d"

/-- `_normalize_json`: parse and re-serialize; on any parse failure return
the input prefixed with the illegal-value sentinel (the `except
ValueError` branch — the function never raises). -/
def _normalize_json (s : String) : String :=
  match loadsJson s with
  | some v => jdumpF (s.data.length + 1) v
  | none => "-illegal-json-" ++ s

/-! ## Result comparison rows (`Result.check_against`, result.py 273-372) -/

/-- A normalized property key: the stringified key-part tuple. -/
abbrev Key := List String

/-- A stored property value: a string, or a `MaybeDecimal` kept as such
(both are rendered through `"%s" %` before comparison). -/
inductive PropValue where
  | strv (s : String)
  | mdv (m : MaybeDecimal)
deriving DecidableEq

/-- The two `Result` fields `check_against` reads per row. -/
structure ResultR where
  properties : List (Key × PropValue)
  types : List (Key × String)

/-- Dictionary lookup in an association list with unique keys. -/
def alistGet (l : List (Key × α)) (k : Key) : Option α :=
  (l.find? (fun kv => kv.1 = k)).map (fun kv => kv.2)

/-- `"%s" % properties.get(k, None)`: an absent key prints as the string
`"None"`, a present value prints as itself. -/
def pyFormatValue : Option PropValue → String
  | none => "None"
  | some (PropValue.strv s) => s
  | some (PropValue.mdv m) => m.str

/-- Outcome of one comparison row; `typeConflict` is the fatal
`RuntimeError("incompatible property data types")`. -/
inductive RowStatus where
  | ok
  | fail
  | ignored
  | typeConflict
deriving DecidableEq

/-- The `is_close` tolerance comparator built by `make_is_close`:
both sides must parse as decimals and differ by at most `eps`. -/
def is_close (eps : ℚ) (a b : String) : Bool :=
  match parseDec a, parseDec b with
  | some x, some y => |x.toRat - y.toRat| ≤ eps
  | _, _ => false

/-- `comparators.get(k, is_exactly_equal)`: the percentage keys get the
0.01-tolerance comparator when `inaccurate_percentage_rounding` is set,
every other key compares by string equality. -/
def rowComparator (ws : Workarounds) (k : Key) : String → String → Bool :=
  if ws.inaccurate_percentage_rounding ∧
      (k = ["statistics_tab", "percentage_reached"] ∨
       k = ["results_tab", "percentage_reached"]) then
    is_close (1 / 100)
  else fun a b => a = b

/-- The `ignore_key` predicate of `check_against`. -/
def ignore_key (ws : Workarounds) (k : Key) : Bool :=
  k.head? = some "results_tab" ∧ ws.ignore_wrong_results_in_results_tab

/-- Status assignment at the end of the loop body. -/
def judgeRow (ws : Workarounds) (k : Key) (vs vo : String) : RowStatus :=
  if ignore_key ws k then RowStatus.ignored
  else if rowComparator ws k vs vo then RowStatus.ok
  else RowStatus.fail

/-- The `types` tuple of the loop body: the source reads `self.types` for
BOTH `type_self` and `type_other` (result.py lines 320-321), so the
`other` result's declared kinds are never consulted. -/
def resolvedKinds (self : ResultR) (k : Key) : List String :=
  ([alistGet self.types k, alistGet self.types k].filterMap id).dedup

/-- One iteration of the key loop of `Result.check_against`: stringify
both sides (`None` for an absent key), apply `workarounds.normalize`,
resolve the declared value kinds through `resolvedKinds`, then either
canonicalize as JSON, abort on any other declared kind, or compare
directly. -/
def check_row (self other : ResultR) (ws : Workarounds) (k : Key) : RowStatus :=
  if resolvedKinds self k = ["json"] then
    judgeRow ws k
      (_normalize_json (ws.normalize (pyFormatValue (alistGet self.properties k))))
      (_normalize_json (ws.normalize (pyFormatValue (alistGet other.properties k))))
  else if resolvedKinds self k ≠ [] then RowStatus.typeConflict
  else
    judgeRow ws k (ws.normalize (pyFormatValue (alistGet self.properties k)))
      (ws.normalize (pyFormatValue (alistGet other.properties k)))

/-! ## Spec-side comparison definitions and concrete fixtures -/

/-- The claim's reading of the one-to-one maximum: the best total weight
over sub-collections of the defined pairs that use every definition and
every term at most once, with leaving pairs out always allowed and free
(so the empty matching, worth 0, is always available). -/
def claimedOneToOneMax (scores : ScoreTable) : ℚ :=
  ((scores.sublists.filter fun l =>
      decide ((l.map fun kv => kv.1.1).Nodup) && decide ((l.map fun kv => kv.1.2).Nodup)).map
    fun l => (l.map fun kv => kv.2).sum).foldl max 0

/-- The answers that score when `identical_scoring` is false: those whose
normalized value does not occur as the normalized value of an earlier
answer of the same answer set (`seen` carries values treated as already
given). -/
def firstOccurrences (q : ClozeQuestion) (ws : Workarounds) :
    List (Nat × String) → List String → List (Nat × String)
  | [], _ => []
  | (index, text) :: rest, seen =>
    let n := normalizeAnswer q ws text
    if n ∈ seen then firstOccurrences q ws rest seen
    else (index, text) :: firstOccurrences q ws rest (n :: seen)

/-- A `Workarounds` value with every flag off and the identity `normalize`
transform. -/
def defaultWorkarounds : Workarounds := ⟨id, false, false, false, false⟩

/-- Fixture: a result declaring key `q` as json with object text in
`a`-before-`b` key order. -/
def resultJsonAB : ResultR :=
  ⟨[(["q"], PropValue.strv "\x7b\"a\":1,\"b\":2\x7d")], [(["q"], "json")]⟩

/-- Fixture: the same object with the keys in the other order. -/
def resultJsonBA : ResultR :=
  ⟨[(["q"], PropValue.strv "\x7b\"b\":2,\"a\":1\x7d")], [(["q"], "json")]⟩

/-- Fixture: the `a`-first object with different whitespace. -/
def resultJsonABSpaced : ResultR :=
  ⟨[(["q"], PropValue.strv "\x7b \"a\": 1,  \"b\": 2 \x7d")], [(["q"], "json")]⟩

/-- Fixture: value `1` under key `q`, declared as kind `json`. -/
def resultTypedJson : ResultR := ⟨[(["q"], PropValue.strv "1")], [(["q"], "json")]⟩

/-- Fixture: value `1` under key `q`, declared as kind `xml`. -/
def resultTypedXml : ResultR := ⟨[(["q"], PropValue.strv "1")], [(["q"], "xml")]⟩

/-- Fixture: a result with no properties and no declared kinds. -/
def resultEmpty : ResultR := ⟨[], []⟩

/-- Fixture: a result whose key `k` holds the literal string `None`. -/
def resultNoneString : ResultR := ⟨[(["k"], PropValue.strv "None")], []⟩

/-- Fixture: the spec's one-to-one example table. -/
def exampleMatchingScores : ScoreTable :=
  [(("d1", "t1"), 5), (("d1", "t2"), 3), (("d2", "t1"), 4), (("d2", "t2"), 2)]

/-- Fixture: two definitions, two terms, every pair defined and negative. -/
def allNegativeScores : ScoreTable :=
  [(("d1", "t1"), -1), (("d1", "t2"), -1), (("d2", "t1"), -1), (("d2", "t2"), -1)]

/-- Fixture: the spec's many-to-many example table. -/
def negPairScores : ScoreTable := [(("d", "t"), -1), (("d", "t2"), 3)]

/-- Fixture: a cloze question with `identical_scoring` off, one text gap
(option `5` worth 2) and one numeric gap (range 0..10 worth 3). -/
def mixedGapQuestion : ClozeQuestion :=
  ⟨false, ClozeComparator.case_sensitive,
    [ClozeGap.text [("5", 2)] ClozeComparator.case_sensitive, ClozeGap.numeric 0 10 3]⟩

/-! ## Helper lemmas -/

theorem computeScoreAux_of_identical (q : ClozeQuestion) (ws : Workarounds)
    (hq : q.identical_scoring = true) :
    ∀ (answers : List (Nat × String)) (given : List String),
      computeScoreAux q ws answers given =
        (answers.map fun it => (q.gapAt it.1).get_score it.2).sum := by
  intro answers
  induction answers with
  | nil => intro given; simp [computeScoreAux]
  | cons hd tl ih =>
    intro given
    obtain ⟨index, text⟩ := hd
    simp [computeScoreAux, hq, ih]

theorem computeScoreAux_of_dedup (q : ClozeQuestion) (ws : Workarounds)
    (hq : q.identical_scoring = false) :
    ∀ (answers : List (Nat × String)) (seen : List String),
      computeScoreAux q ws answers seen =
        ((firstOccurrences q ws answers seen).map
          fun it => (q.gapAt it.1).get_score it.2).sum := by
  intro answers
  induction answers with
  | nil => intro seen; simp [computeScoreAux, firstOccurrences]
  | cons hd tl ih =>
    intro seen
    obtain ⟨index, text⟩ := hd
    by_cases hmem : normalizeAnswer q ws text ∈ seen
    · simp [computeScoreAux, firstOccurrences, hq, hmem, ih]
    · simp [computeScoreAux, firstOccurrences, hq, hmem, ih]

/-! ## Claim theorems -/

/-- C9: `format_score` strips trailing zero fractional digits and a
trailing decimal point from the ceiling-rounded score:
`format_score("12.50") = "12.5"` and `format_score("12.00") = "12"`. -/
theorem format_score_examples :
    format_score (MaybeDecimal.ofText "12.50") = "12.5" ∧
    format_score (MaybeDecimal.ofText "12.00") = "12" :=
  ⟨by with_unfolding_all rfl, by with_unfolding_all rfl⟩

/-- C6: for every non-empty score table, the many-to-many maximum of
`_compute_maximum_score` is the sum over all defined pairs of
`max(score, 0)`, so negative pairs contribute nothing; in particular the
table with scores -1 and 3 has maximum 3. -/
theorem many_to_many_maximum :
    (∀ (scores : ScoreTable) (ws : Workarounds), scores ≠ [] →
      compute_maximum_score scores MatchingMultiplicity.many_to_many ws =
        (scores.map fun kv => max kv.2 0).sum) ∧
    compute_maximum_score negPairScores MatchingMultiplicity.many_to_many defaultWorkarounds
      = 3 := by
  constructor
  · intro scores ws h
    simp [compute_maximum_score, h]
  · with_unfolding_all decide

/-- C6 witness: the general statement applied to the example table. -/
theorem many_to_many_maximum_witness :
    compute_maximum_score negPairScores MatchingMultiplicity.many_to_many defaultWorkarounds =
      (negPairScores.map fun kv => max kv.2 0).sum :=
  many_to_many_maximum.1 negPairScores defaultWorkarounds (by decide)

/-- C7: a numeric gap scores the flat value exactly on texts that parse
as a decimal inside the inclusive range (bounds included), 0 on parsed
values outside the range, and 0 — without raising — on text that does
not parse as a number. -/
theorem numeric_gap_score_range (lower upper score : ℚ) (t : String) :
    (∀ v : Dec, parseDec t = some v → lower ≤ v.toRat → v.toRat ≤ upper →
      (ClozeGap.numeric lower upper score).get_score t = score) ∧
    (∀ v : Dec, parseDec t = some v → ¬(lower ≤ v.toRat ∧ v.toRat ≤ upper) →
      (ClozeGap.numeric lower upper score).get_score t = 0) ∧
    (parseDec t = none → (ClozeGap.numeric lower upper score).get_score t = 0) := by
  refine ⟨?_, ?_, ?_⟩
  · intro v hv h1 h2
    simp [ClozeGap.get_score, hv, h1, h2]
  · intro v hv h
    simp [ClozeGap.get_score, hv, h]
  · intro hv
    simp [ClozeGap.get_score, hv]

/-- C7 witness: the value exactly at the upper bound of a 0..10 gap worth
3 scores the full 3. -/
theorem numeric_gap_score_range_witness :
    (ClozeGap.numeric 0 10 3).get_score "10" = 3 :=
  (numeric_gap_score_range 0 10 3 "10").1 ⟨false, 10, 0⟩
    (by with_unfolding_all decide) (by with_unfolding_all decide)
    (by with_unfolding_all decide)

/-- C10: a key absent from one Result is rendered as the string `None`,
so it compares OK against a side that stores the literal string `None`
(under the default exact comparator with the key not ignored and no kind
declared): an absent property is indistinguishable from `"None"`. -/
theorem absent_key_matches_none_string (self other : ResultR) (ws : Workarounds) (k : Key)
    (h1 : alistGet self.properties k = none)
    (h2 : alistGet other.properties k = some (PropValue.strv "None"))
    (h3 : alistGet self.types k = none)
    (h4 : ignore_key ws k = false)
    (h5 : ws.inaccurate_percentage_rounding = false) :
    check_row self other ws k = RowStatus.ok ∧
    pyFormatValue (alistGet self.properties k) =
      pyFormatValue (alistGet other.properties k) := by
  constructor
  · unfold check_row
    rw [h1, h2]
    simp [resolvedKinds, h3, pyFormatValue, judgeRow, h4, rowComparator, h5]
  · rw [h1, h2]
    rfl

/-- C10 witness: an empty result against one storing `"None"` under `k`. -/
theorem absent_key_matches_none_string_witness :
    check_row resultEmpty resultNoneString defaultWorkarounds ["k"] = RowStatus.ok ∧
    pyFormatValue (alistGet resultEmpty.properties ["k"]) =
      pyFormatValue (alistGet resultNoneString.properties ["k"]) :=
  absent_key_matches_none_string resultEmpty resultNoneString defaultWorkarounds ["k"]
    rfl (by with_unfolding_all rfl) rfl rfl rfl

/-- C2: evidence for the type-resolution slip — `check_against` reads
`self.types` for both `type_self` and `type_other` (result.py line 321),
so two sides declaring the disagreeing kinds `json` and `xml` for the
same key produce an ordinary OK row instead of the fatal data-type
conflict the spec requires. -/
theorem type_conflict_not_detected :
    check_row resultTypedJson resultTypedXml defaultWorkarounds ["q"] = RowStatus.ok ∧
    alistGet resultTypedJson.types ["q"] = some "json" ∧
    alistGet resultTypedXml.types ["q"] = some "xml" :=
  ⟨by with_unfolding_all rfl, by with_unfolding_all rfl, by with_unfolding_all rfl⟩

set_option maxRecDepth 100000 in
set_option maxHeartbeats 2000000 in
/-- C1 counterexample: both sides declare `q` as json and hold the same
two-member object with the keys in opposite orders — the claim says the
row compares equal, but `json.dumps` preserves the (insertion-ordered)
key order of each side, so the row is FAIL. -/
theorem json_key_order_not_canonical :
    check_row resultJsonAB resultJsonBA defaultWorkarounds ["q"] = RowStatus.fail ∧
    loadsJson "\x7b\"a\":1,\"b\":2\x7d" =
      some (JValue.jobj [("a", JValue.jnum 1), ("b", JValue.jnum 2)]) ∧
    loadsJson "\x7b\"b\":2,\"a\":1\x7d" =
      some (JValue.jobj [("b", JValue.jnum 2), ("a", JValue.jnum 1)]) :=
  ⟨by with_unfolding_all decide, by with_unfolding_all rfl, by with_unfolding_all rfl⟩

/-- C1 (amended): for a key whose receiver-declared kind is json, the row
is OK exactly when the parse+re-serialize canonicalizations of the two
(workaround-normalized) values coincide — formatting is canonicalized
but object key order is preserved; a value that fails to parse never
raises and is replaced by the `-illegal-json-` sentinel. -/
theorem check_against_json_rows (self other : ResultR) (ws : Workarounds) (k : Key)
    (hj : alistGet self.types k = some "json")
    (hig : ignore_key ws k = false)
    (hp : ws.inaccurate_percentage_rounding = false) :
    (check_row self other ws k = RowStatus.ok ↔
      _normalize_json (ws.normalize (pyFormatValue (alistGet self.properties k))) =
        _normalize_json (ws.normalize (pyFormatValue (alistGet other.properties k)))) ∧
    (∀ s : String, loadsJson s = none → _normalize_json s = "-illegal-json-" ++ s) := by
  constructor
  · have hk : resolvedKinds self k = ["json"] := by
      unfold resolvedKinds
      rw [hj]
      decide
    unfold check_row
    rw [if_pos hk]
    by_cases h : _normalize_json (ws.normalize (pyFormatValue (alistGet self.properties k))) =
        _normalize_json (ws.normalize (pyFormatValue (alistGet other.properties k)))
    · simp [judgeRow, hig, rowComparator, hp, h]
    · simp [judgeRow, hig, rowComparator, hp, h]
  · intro s hs
    unfold _normalize_json
    rw [hs]

set_option maxRecDepth 1000000 in
set_option maxHeartbeats 2000000 in
/-- C1 witness: the same object text written with different whitespace on
the two sides canonicalizes identically, so the row is OK. -/
theorem check_against_json_rows_witness :
    check_row resultJsonABSpaced resultJsonAB defaultWorkarounds ["q"] = RowStatus.ok :=
  (check_against_json_rows resultJsonABSpaced resultJsonAB defaultWorkarounds ["q"]
    (by with_unfolding_all decide) rfl rfl).1.mpr (by with_unfolding_all decide)

set_option maxRecDepth 100000 in
set_option maxHeartbeats 2000000 in
/-- C4 counterexample: `identical_scoring` false; gap 0 is a text gap and
gap 1 a numeric gap (different gap types), both answered `5`.  The claim
says the numeric gap (worth 3 for `5` on its own) still scores, but the
`given_answers` set is shared across all gaps, so the total is 2, not 5. -/
theorem dedup_ignores_gap_type :
    compute_score_by_indices mixedGapQuestion [(0, "5"), (1, "5")] defaultWorkarounds = 2 ∧
    (mixedGapQuestion.gapAt 0).get_type ≠ (mixedGapQuestion.gapAt 1).get_type ∧
    (mixedGapQuestion.gapAt 1).get_score "5" = 3 ∧
    mixedGapQuestion.identical_scoring = false :=
  ⟨by with_unfolding_all decide, by decide,
   by with_unfolding_all decide, rfl⟩

/-- C4 (amended): when `identical_scoring` is true every gap scores
independently; when false, exactly the answers whose normalized value
has no earlier occurrence — across all gaps regardless of gap type —
contribute their gap score. -/
theorem compute_score_dedup_across_gaps (q : ClozeQuestion) (ws : Workarounds)
    (answers : List (Nat × String)) :
    (q.identical_scoring = true →
      compute_score_by_indices q answers ws =
        (answers.map fun it => (q.gapAt it.1).get_score it.2).sum) ∧
    (q.identical_scoring = false →
      compute_score_by_indices q answers ws =
        ((firstOccurrences q ws answers []).map
          fun it => (q.gapAt it.1).get_score it.2).sum) := by
  constructor
  · intro hq
    exact computeScoreAux_of_identical q ws hq answers []
  · intro hq
    exact computeScoreAux_of_dedup q ws hq answers []

/-- C4 witness: the amended characterization applied to the two-gap
fixture. -/
theorem compute_score_dedup_across_gaps_witness :
    compute_score_by_indices mixedGapQuestion [(0, "5"), (1, "5")] defaultWorkarounds =
      ((firstOccurrences mixedGapQuestion defaultWorkarounds [(0, "5"), (1, "5")] []).map
        fun it => (mixedGapQuestion.gapAt it.1).get_score it.2).sum :=
  (compute_score_dedup_across_gaps mixedGapQuestion defaultWorkarounds
    [(0, "5"), (1, "5")]).2 rfl

/-- `quantize(ROUND_CEILING)` never decreases the numeric value. -/
theorem toRat_le_quantizeCeil2 (d : Dec) : d.toRat ≤ (quantizeCeil2 d).toRat := by
  have h10 : (10:ℚ) ≠ 0 := by norm_num
  obtain ⟨sg, c, e⟩ := d
  unfold quantizeCeil2
  by_cases h : 0 ≤ e + 2
  · rw [if_pos h]
    apply le_of_eq
    unfold Dec.toRat
    simp only
    have hk : (((e + 2).toNat : ℤ)) = e + 2 := Int.toNat_of_nonneg h
    have hpow : ((10:ℚ)) ^ ((e + 2).toNat) * (10:ℚ) ^ (-2 : ℤ) = (10:ℚ) ^ e := by
      rw [← zpow_natCast (10:ℚ) (e + 2).toNat, hk, ← zpow_add₀ h10]
      norm_num
    push_cast
    rw [mul_assoc, mul_assoc, mul_assoc, hpow]
  · rw [if_neg h]
    have hm : ((((-(e + 2)).toNat : ℕ)) : ℤ) = -(e + 2) := Int.toNat_of_nonneg (by omega)
    set m : ℕ := (-(e + 2)).toNat with hmdef
    have he : e = -2 - (m : ℤ) := by omega
    have hPn : 0 < (10:ℕ) ^ m := by positivity
    have hP : (0:ℚ) < ((10:ℚ)) ^ m := by positivity
    have hX : (0:ℚ) < (10:ℚ) ^ (-2 : ℤ) := by positivity
    have hpow : ((10:ℚ)) ^ e = (10:ℚ) ^ (-2 : ℤ) / (10:ℚ) ^ m := by
      rw [he, div_eq_mul_inv, ← zpow_natCast (10:ℚ) m, ← zpow_neg, ← zpow_add₀ h10,
        sub_eq_add_neg]
    have hQP : ((10:ℚ)) ^ m * ((c / 10 ^ m : ℕ) : ℚ) ≤ (c : ℚ) := by
      have hn := Nat.mul_div_le c (10 ^ m)
      calc ((10:ℚ)) ^ m * ((c / 10 ^ m : ℕ) : ℚ)
          = (((10 ^ m * (c / 10 ^ m) : ℕ)) : ℚ) := by push_cast; ring
        _ ≤ (c : ℚ) := by exact_mod_cast hn
    unfold Dec.toRat
    simp only
    rw [hpow]
    rcases Bool.eq_false_or_eq_true sg with hsg | hsg <;> subst hsg <;>
      simp only [Bool.true_eq_false, Bool.false_eq_true, reduceIte]
    · -- sign true (negative value)
      have hqc : (((c / 10 ^ m : ℕ)) : ℚ) ≤ (c : ℚ) / (10:ℚ) ^ m := by
        rw [le_div_iff₀ hP]
        calc (((c / 10 ^ m : ℕ)) : ℚ) * (10:ℚ) ^ m
            = ((10:ℚ)) ^ m * ((c / 10 ^ m : ℕ) : ℚ) := by ring
          _ ≤ (c : ℚ) := hQP
      have lhs_eq : (-1:ℚ) * (c : ℚ) * ((10:ℚ) ^ (-2 : ℤ) / (10:ℚ) ^ m) =
          (-((c : ℚ) / (10:ℚ) ^ m)) * (10:ℚ) ^ (-2 : ℤ) := by ring
      have rhs_eq : (-1:ℚ) * (((c / 10 ^ m : ℕ)) : ℚ) * (10:ℚ) ^ (-2 : ℤ) =
          (-(((c / 10 ^ m : ℕ)) : ℚ)) * (10:ℚ) ^ (-2 : ℤ) := by ring
      rw [lhs_eq, rhs_eq]
      exact mul_le_mul_of_nonneg_right (neg_le_neg hqc) hX.le
    · -- sign false (positive value)
      have hcle : (c : ℚ) ≤
          (((c / 10 ^ m + (if c % 10 ^ m = 0 then 0 else 1) : ℕ)) : ℚ) * (10:ℚ) ^ m := by
        by_cases hr : c % 10 ^ m = 0
        · rw [if_pos hr]
          have hdm : (c / 10 ^ m) * 10 ^ m = c := Nat.div_mul_cancel (Nat.dvd_of_mod_eq_zero hr)
          apply le_of_eq
          calc (c : ℚ) = (((c / 10 ^ m) * 10 ^ m : ℕ) : ℚ) := by rw [hdm]
            _ = (((c / 10 ^ m + 0 : ℕ)) : ℚ) * (10:ℚ) ^ m := by push_cast; ring
        · rw [if_neg hr]
          have h1 : 10 ^ m * (c / 10 ^ m) + c % 10 ^ m = c := Nat.div_add_mod c (10 ^ m)
          have h2 : c % 10 ^ m < 10 ^ m := Nat.mod_lt _ hPn
          have h1q : ((10:ℚ)) ^ m * ((c / 10 ^ m : ℕ) : ℚ) + ((c % 10 ^ m : ℕ) : ℚ) = (c : ℚ) := by
            calc ((10:ℚ)) ^ m * ((c / 10 ^ m : ℕ) : ℚ) + ((c % 10 ^ m : ℕ) : ℚ)
                = (((10 ^ m * (c / 10 ^ m) + c % 10 ^ m : ℕ)) : ℚ) := by push_cast; ring
              _ = (c : ℚ) := by rw [h1]
          have h2q : ((c % 10 ^ m : ℕ) : ℚ) < ((10:ℚ)) ^ m := by
            calc ((c % 10 ^ m : ℕ) : ℚ) < (((10:ℕ) ^ m : ℕ) : ℚ) := by exact_mod_cast h2
              _ = ((10:ℚ)) ^ m := by push_cast; ring
          have hexp : (((c / 10 ^ m + 1 : ℕ)) : ℚ) * (10:ℚ) ^ m =
              ((10:ℚ)) ^ m * ((c / 10 ^ m : ℕ) : ℚ) + (10:ℚ) ^ m := by push_cast; ring
          rw [hexp]
          linarith
      have lhs_eq : (1:ℚ) * (c : ℚ) * ((10:ℚ) ^ (-2 : ℤ) / (10:ℚ) ^ m) =
          ((c : ℚ) / (10:ℚ) ^ m) * (10:ℚ) ^ (-2 : ℤ) := by ring
      have rhs_eq : (1:ℚ) * (((c / 10 ^ m + (if c % 10 ^ m = 0 then 0 else 1) : ℕ)) : ℚ) *
            (10:ℚ) ^ (-2 : ℤ) =
          (((c / 10 ^ m + (if c % 10 ^ m = 0 then 0 else 1) : ℕ)) : ℚ) *
            (10:ℚ) ^ (-2 : ℤ) := by ring
      rw [lhs_eq, rhs_eq]
      exact mul_le_mul_of_nonneg_right ((div_le_iff₀ hP).mpr hcle) hX.le

/-- C5: ceiling-rounding to 2 digits maps a valid decimal to a valid
decimal that is numerically greater than or equal to the input, and
returns an invalid input unchanged as the invalid state. -/
theorem round_up_never_rounds_down (x : MaybeDecimal) :
    (x = none → round_up_to_2_digits x = none) ∧
    (∀ d : Dec, x = some d →
      round_up_to_2_digits x = some (quantizeCeil2 d) ∧
      (round_up_to_2_digits x).valid = true ∧
      d.toRat ≤ (quantizeCeil2 d).toRat) := by
  constructor
  · intro hx
    rw [hx]
    rfl
  · intro d hx
    rw [hx]
    exact ⟨rfl, rfl, toRat_le_quantizeCeil2 d⟩

set_option maxRecDepth 1000000 in
/-- C5 witness: the theorem applied to the parsed text `1.005` (which
rounds up to `1.01`). -/
theorem round_up_never_rounds_down_witness :
    round_up_to_2_digits (MaybeDecimal.ofText "1.005") =
      some (quantizeCeil2 ⟨false, 1005, -3⟩) ∧
    (round_up_to_2_digits (MaybeDecimal.ofText "1.005")).valid = true ∧
    (⟨false, 1005, -3⟩ : Dec).toRat ≤ (quantizeCeil2 ⟨false, 1005, -3⟩).toRat :=
  (round_up_never_rounds_down (MaybeDecimal.ofText "1.005")).2 ⟨false, 1005, -3⟩
    (by with_unfolding_all decide)

theorem mem_pickOrders_length [DecidableEq α] :
    ∀ (k : Nat) (l : List α) (xs : List α), xs ∈ pickOrders k l → xs.length = k := by
  intro k
  induction k with
  | zero =>
    intro l xs h
    simp [pickOrders] at h
    simp [h]
  | succ k ih =>
    intro l xs h
    simp only [pickOrders, List.mem_flatMap, List.mem_map] at h
    obtain ⟨x, _, ys, hys, rfl⟩ := h
    simp [ih _ _ hys]

theorem pickOrders_ne_nil [DecidableEq α] :
    ∀ (k : Nat) (l : List α), k ≤ l.length → pickOrders k l ≠ [] := by
  intro k
  induction k with
  | zero => intro l _; simp [pickOrders]
  | succ k ih =>
    intro l hl
    match l with
    | [] => simp at hl
    | x :: xs =>
      simp only [pickOrders, List.flatMap_cons, List.erase_cons_head]
      intro hcontra
      rcases List.append_eq_nil.mp hcontra with ⟨h1, _⟩
      have : pickOrders k xs ≠ [] := ih xs (by simpa using hl)
      exact this (List.map_eq_nil_iff.mp h1)

theorem foldl_pickMin_mem (cost : Assignment → ℚ) :
    ∀ (xs : List Assignment) (x : Assignment),
      xs.foldl (fun b a => if cost a < cost b then a else b) x ∈ x :: xs := by
  intro xs
  induction xs with
  | nil => intro x; simp
  | cons y ys ih =>
    intro x
    simp only [List.foldl_cons]
    rcases List.mem_cons.mp (ih (if cost y < cost x then y else x)) with h | h
    · rw [h]
      by_cases hc : cost y < cost x <;> simp [hc]
    · simp [h]

theorem foldl_pickMin_le (cost : Assignment → ℚ) :
    ∀ (xs : List Assignment) (x : Assignment) (y : Assignment), y ∈ x :: xs →
      cost (xs.foldl (fun b a => if cost a < cost b then a else b) x) ≤ cost y := by
  intro xs
  induction xs with
  | nil =>
    intro x y hy
    simp at hy
    simp [hy]
  | cons z zs ih =>
    intro x y hy
    simp only [List.foldl_cons]
    have hwx : cost (if cost z < cost x then z else x) ≤ cost x := by
      by_cases hc : cost z < cost x <;> simp [hc, le_of_lt]
    have hwz : cost (if cost z < cost x then z else x) ≤ cost z := by
      by_cases hc : cost z < cost x <;> simp [hc]
      exact le_of_not_lt hc
    have hfw : cost (zs.foldl (fun b a => if cost a < cost b then a else b)
        (if cost z < cost x then z else x)) ≤ cost (if cost z < cost x then z else x) :=
      ih _ _ (List.mem_cons_self _ _)
    rcases List.mem_cons.mp hy with rfl | hy₂
    · exact le_trans hfw hwx
    · rcases List.mem_cons.mp hy₂ with rfl | hy₃
      · exact le_trans hfw hwz
      · exact ih _ _ (List.mem_cons_of_mem _ hy₃)

theorem pickMinCost_spec (cost : Assignment → ℚ) (l : List Assignment) (h : l ≠ []) :
    ∃ a, pickMinCost cost l = some a ∧ a ∈ l ∧ ∀ b ∈ l, cost a ≤ cost b := by
  match l with
  | [] => exact absurd rfl h
  | x :: xs =>
    refine ⟨xs.foldl (fun b a => if cost a < cost b then a else b) x, rfl, ?_, ?_⟩
    · exact foldl_pickMin_mem cost xs x
    · exact foldl_pickMin_le cost xs x

theorem costSum_eq (scores : ScoreTable) (m : ℚ) (a : Assignment) :
    costSum scores m a = a.length * m - scoreSum scores a := by
  induction a with
  | nil => simp [costSum, scoreSum]
  | cons rc rest ih =>
    simp only [costSum, scoreSum, List.map_cons, List.sum_cons, List.length_cons] at ih ⊢
    push_cast
    rw [ih]
    ring

theorem mem_assignmentCandidates_length (rows : List (Option String)) (cols : List String)
    (a : Assignment) (ha : a ∈ assignmentCandidates rows cols) :
    a.length = min rows.length cols.length := by
  simp only [assignmentCandidates, List.mem_flatMap, List.mem_map] at ha
  obtain ⟨rs, hrs, cs, hcs, rfl⟩ := ha
  rw [List.length_zip, mem_pickOrders_length _ _ _ hrs, mem_pickOrders_length _ _ _ hcs]
  simp

theorem assignmentCandidates_ne_nil (rows : List (Option String)) (cols : List String) :
    assignmentCandidates rows cols ≠ [] := by
  have hk : min rows.length cols.length ≤ rows.length := Nat.min_le_left _ _
  have hk2 : min rows.length cols.length ≤ cols.length := Nat.min_le_right _ _
  obtain ⟨rs, hrs⟩ := List.exists_mem_of_ne_nil _ (pickOrders_ne_nil _ rows hk)
  obtain ⟨cs, hcs⟩ := List.exists_mem_of_ne_nil _ (pickOrders_ne_nil _ cols hk2)
  apply List.ne_nil_of_mem (a := rs.zip cs)
  simp only [assignmentCandidates, List.mem_flatMap, List.mem_map]
  exact ⟨rs, hrs, cs, hcs, rfl⟩

set_option maxRecDepth 1000000 in
/-- C3 (amended): for every (non-empty) score table, `_one_to_one_correct`
equals the maximum total table score over all maximal one-to-one pairings
of `min(|definitions|+1, |terms|)` rows — the definitions plus ONE shared
`None` row — with distinct terms; definitions can be left unmatched for
free, but when every pair is defined and there are at least as many
definitions as terms, at most one term can escape through the `None` row,
so a negative pair can be forced.  For the spec's example table the
maximum is 7. -/
theorem one_to_one_correct_assignment_max :
    (∀ scores : ScoreTable, scores ≠ [] →
      (∃ a ∈ assignmentCandidates ((scoreDefs scores).map some ++ [none]) (scoreTerms scores),
         one_to_one_correct scores = scoreSum scores a) ∧
      (∀ a ∈ assignmentCandidates ((scoreDefs scores).map some ++ [none]) (scoreTerms scores),
         scoreSum scores a ≤ one_to_one_correct scores)) ∧
    one_to_one_correct exampleMatchingScores = 7 := by
  constructor
  · intro scores _
    obtain ⟨amin, hpick, hmem, hle⟩ := pickMinCost_spec (costSum scores (scoresMax scores)) _
      (assignmentCandidates_ne_nil ((scoreDefs scores).map some ++ [none]) (scoreTerms scores))
    have hval : one_to_one_correct scores = scoreSum scores amin := by
      unfold one_to_one_correct
      rw [hpick]
    constructor
    · exact ⟨amin, hmem, hval⟩
    · intro a ha
      rw [hval]
      have h1 := hle a ha
      rw [costSum_eq, costSum_eq] at h1
      have hlen1 := mem_assignmentCandidates_length _ _ _ hmem
      have hlen2 := mem_assignmentCandidates_length _ _ _ ha
      rw [hlen1, hlen2] at h1
      linarith
  · with_unfolding_all decide

set_option maxRecDepth 1000000 in
/-- C3 counterexample: with every (definition, term) pair defined and
negative, the claim's reading (every definition independently unmatchable
at no cost, so never forced to take a negative pair) gives 0, but the
code returns -1: both terms must be matched and only one can use the
single `None` row. -/
theorem one_to_one_forced_negative_pair :
    one_to_one_correct allNegativeScores = -1 ∧
    claimedOneToOneMax allNegativeScores = 0 :=
  ⟨by with_unfolding_all decide, by with_unfolding_all decide⟩

/-- C3 witness: the general bound applied to a concrete assignment of the
example table. -/
theorem one_to_one_correct_assignment_max_witness :
    scoreSum exampleMatchingScores [(some "d1", "t1"), (some "d2", "t2")] ≤
      one_to_one_correct exampleMatchingScores :=
  (one_to_one_correct_assignment_max.1 exampleMatchingScores (by decide)).2
    [(some "d1", "t1"), (some "d2", "t2")] (by with_unfolding_all decide)

theorem digitVal_digitChar {k : Nat} (h : k < 10) : digitVal (digitChar k) = k := by
  interval_cases k <;> decide

theorem isDigit_digitChar {k : Nat} (h : k < 10) : (digitChar k).isDigit = true := by
  interval_cases k <;> decide

theorem natDigitsAux_digits :
    ∀ (fuel n : Nat), ∀ c ∈ natDigitsAux fuel n, c.isDigit = true := by
  intro fuel
  induction fuel with
  | zero => intro n c hc; simp [natDigitsAux] at hc
  | succ fuel ih =>
    intro n c hc
    by_cases hn : n = 0
    · simp [natDigitsAux, hn] at hc
    · rw [natDigitsAux, if_neg hn] at hc
      rcases List.mem_append.mp hc with h | h
      · exact ih _ c h
      · rw [List.mem_singleton.mp h]
        exact isDigit_digitChar (Nat.mod_lt n (by norm_num))

theorem natDigitChars_digits (n : Nat) : ∀ c ∈ natDigitChars n, c.isDigit = true := by
  intro c hc
  unfold natDigitChars at hc
  by_cases hn : n = 0
  · rw [if_pos hn] at hc
    rw [List.mem_singleton.mp hc]
    decide
  · rw [if_neg hn] at hc
    exact natDigitsAux_digits _ _ c hc

theorem natDigitsAux_ne_nil {fuel n : Nat} (hn : n ≠ 0) (hf : fuel ≠ 0) :
    natDigitsAux fuel n ≠ [] := by
  match fuel with
  | 0 => exact absurd rfl hf
  | fuel + 1 =>
    rw [natDigitsAux, if_neg hn]
    simp

theorem natDigitChars_ne_nil (n : Nat) : natDigitChars n ≠ [] := by
  unfold natDigitChars
  by_cases hn : n = 0
  · simp [hn]
  · rw [if_neg hn]
    exact natDigitsAux_ne_nil hn (by omega)

theorem digitsToNat_append_single (xs : List Char) (c : Char) :
    digitsToNat (xs ++ [c]) = 10 * digitsToNat xs + digitVal c := by
  unfold digitsToNat
  rw [List.foldl_append]
  rfl

theorem digitsToNat_natDigitsAux :
    ∀ (fuel n : Nat), n ≤ fuel → digitsToNat (natDigitsAux fuel n) = n := by
  intro fuel
  induction fuel with
  | zero =>
    intro n h
    interval_cases n
    rfl
  | succ fuel ih =>
    intro n h
    by_cases hn : n = 0
    · simp [natDigitsAux, hn, digitsToNat]
    · rw [natDigitsAux, if_neg hn, digitsToNat_append_single,
        ih (n / 10) (by omega), digitVal_digitChar (Nat.mod_lt n (by norm_num))]
      omega

theorem digitsToNat_natDigitChars (n : Nat) : digitsToNat (natDigitChars n) = n := by
  unfold natDigitChars
  by_cases hn : n = 0
  · simp [hn]
    rfl
  · rw [if_neg hn]
    exact digitsToNat_natDigitsAux (n + 1) n (by omega)

theorem digitsToNat_cons_zero (xs : List Char) : digitsToNat ('0' :: xs) = digitsToNat xs := rfl

theorem digitsToNat_replicate_zero (k : Nat) (xs : List Char) :
    digitsToNat (List.replicate k '0' ++ xs) = digitsToNat xs := by
  induction k with
  | zero => rfl
  | succ k ih =>
    rw [List.replicate_succ, List.cons_append, digitsToNat_cons_zero, ih]

theorem takeWhile_append_all (p : Char → Bool) (xs ys : List Char)
    (h : ∀ c ∈ xs, p c = true) : (xs ++ ys).takeWhile p = xs ++ ys.takeWhile p := by
  induction xs with
  | nil => simp
  | cons a l ih =>
    simp only [List.cons_append, List.takeWhile_cons]
    rw [h a (by simp), if_pos rfl, ih (fun c hc => h c (by simp [hc]))]

theorem dropWhile_append_all (p : Char → Bool) (xs ys : List Char)
    (h : ∀ c ∈ xs, p c = true) : (xs ++ ys).dropWhile p = ys.dropWhile p := by
  induction xs with
  | nil => simp
  | cons a l ih =>
    simp only [List.cons_append, List.dropWhile_cons]
    rw [h a (by simp), if_pos rfl, ih (fun c hc => h c (by simp [hc]))]

theorem span_digits_all (xs : List Char) (h : ∀ c ∈ xs, c.isDigit = true) :
    xs.span Char.isDigit = (xs, []) := by
  rw [List.span_eq_take_drop]
  rw [List.takeWhile_eq_self_iff.mpr h, List.dropWhile_eq_nil_iff.mpr (fun c hc => h c hc)]

theorem span_digits_append (xs : List Char) (c : Char) (l : List Char)
    (hx : ∀ x ∈ xs, x.isDigit = true) (hc : c.isDigit = false) :
    (xs ++ c :: l).span Char.isDigit = (xs, c :: l) := by
  rw [List.span_eq_take_drop, takeWhile_append_all _ _ _ hx, dropWhile_append_all _ _ _ hx]
  simp [List.takeWhile_cons, List.dropWhile_cons, hc]

theorem parseSignChar_not_sign {c : Char} (l : List Char) (h1 : c ≠ '-') (h2 : c ≠ '+') :
    parseSignChar (c :: l) = (false, c :: l) := by
  unfold parseSignChar
  split
  · next heq =>
    rw [List.cons.injEq] at heq
    exact absurd heq.1 h1
  · next heq =>
    rw [List.cons.injEq] at heq
    exact absurd heq.1 h2
  · rfl

theorem isDigit_ne_signs {c : Char} (h : c.isDigit = true) : c ≠ '-' ∧ c ≠ '+' := by
  constructor <;> intro heq <;> subst heq <;> simp at h

theorem parseExpPart_expSignChars (a : Int) :
    parseExpPart ('E' :: expSignChars a) = some a := by
  simp only [parseExpPart, expSignChars, or_true, if_true]
  by_cases ha : a < 0
  · simp only [if_pos ha]
    simp only [parseSignChar]
    rw [span_digits_all _ (natDigitChars_digits _)]
    simp only [ne_eq, not_true_eq_false, or_false]
    rw [if_neg (natDigitChars_ne_nil _), digitsToNat_natDigitChars]
    congr 1
    show (-1 : Int) * ↑a.natAbs = a
    omega
  · simp only [if_neg ha]
    simp only [parseSignChar]
    rw [span_digits_all _ (natDigitChars_digits _)]
    simp only [ne_eq, not_true_eq_false, or_false]
    rw [if_neg (natDigitChars_ne_nil _), digitsToNat_natDigitChars]
    congr 1
    show (1 : Int) * ↑a.natAbs = a
    omega

theorem parseDecTail_natDigitChars (sg : Bool) (c : Nat) :
    parseDecTail sg (natDigitChars c) = some ⟨sg, c, 0⟩ := by
  unfold parseDecTail
  rw [span_digits_all _ (natDigitChars_digits c)]
  simp only [parseDecAfterSpan]
  rw [if_neg (natDigitChars_ne_nil c)]
  simp only [parseExpPart]
  rw [digitsToNat_natDigitChars]

theorem parseDecTail_formatDecBody (sg : Bool) (c : Nat) (e : Int) :
    parseDecTail sg (formatDecBody c e) = some ⟨sg, c, e⟩ := by
  have hlen : 1 ≤ (natDigitChars c).length := List.length_pos.mpr (natDigitChars_ne_nil c)
  unfold formatDecBody
  by_cases hfix : e ≤ 0 ∧ -6 ≤ e + ((natDigitChars c).length : Int) - 1
  · rw [if_pos hfix]
    by_cases he : e = 0
    · rw [if_pos he, he]
      exact parseDecTail_natDigitChars sg c
    · rw [if_neg he]
      have hneg : e < 0 := lt_of_le_of_ne hfix.1 he
      by_cases hlt : -e < ((natDigitChars c).length : Int)
      · rw [if_pos hlt]
        have ht : (((natDigitChars c).length : Int) + e).toNat < (natDigitChars c).length := by
          omega
        have hdrop : (natDigitChars c).drop ((((natDigitChars c).length : Int) + e).toNat) ≠ [] := by
          intro hnil
          have := List.drop_eq_nil_iff.mp hnil
          omega
        unfold parseDecTail
        rw [span_digits_append _ '.' _
          (fun x hx => natDigitChars_digits c x (List.take_subset _ _ hx)) (by decide)]
        simp only [parseDecAfterSpan]
        rw [span_digits_all _ (fun x hx => natDigitChars_digits c x (List.drop_subset _ _ hx))]
        simp only [parseDecFrac]
        rw [if_neg (fun h => hdrop h.2)]
        simp only [parseExpPart]
        rw [List.take_append_drop, digitsToNat_natDigitChars]
        simp only [Option.some.injEq, Dec.mk.injEq]
        refine ⟨trivial, trivial, ?_⟩
        rw [List.length_drop]
        omega
      · rw [if_neg hlt]
        have hall : ∀ x ∈ List.replicate (-e - ((natDigitChars c).length : Int)).toNat '0' ++
            natDigitChars c, x.isDigit = true := by
          intro x hx
          rcases List.mem_append.mp hx with h | h
          · rw [List.eq_of_mem_replicate h]
            decide
          · exact natDigitChars_digits c x h
        have hspan := span_digits_append ['0'] '.'
          (List.replicate (-e - ((natDigitChars c).length : Int)).toNat '0' ++ natDigitChars c)
          (by intro x hx; rw [List.mem_singleton.mp hx]; decide) (by decide)
        rw [List.singleton_append] at hspan
        unfold parseDecTail
        rw [hspan]
        simp only [parseDecAfterSpan]
        rw [span_digits_all _ hall]
        simp only [parseDecFrac]
        rw [if_neg (fun h => List.cons_ne_nil _ _ h.1)]
        simp only [parseExpPart]
        rw [List.singleton_append, digitsToNat_cons_zero, digitsToNat_replicate_zero,
          digitsToNat_natDigitChars]
        simp only [Option.some.injEq, Dec.mk.injEq]
        refine ⟨trivial, trivial, ?_⟩
        rw [List.length_append, List.length_replicate]
        omega
  · rw [if_neg hfix]
    obtain ⟨d0, rest, hds⟩ := List.exists_cons_of_ne_nil (natDigitChars_ne_nil c)
    have hd0 : d0.isDigit = true := natDigitChars_digits c d0 (by rw [hds]; simp)
    have hrestd : ∀ x ∈ rest, x.isDigit = true := fun x hx =>
      natDigitChars_digits c x (by rw [hds]; simp [hx])
    have hbody : (match natDigitChars c with
        | [] => ([] : List Char)
        | c₀ :: r =>
          (if r = [] then [c₀] else c₀ :: '.' :: r) ++
            'E' :: expSignChars (e + ((natDigitChars c).length : Int) - 1)) =
        (if rest = [] then [d0] else d0 :: '.' :: rest) ++
          'E' :: expSignChars (e + ((natDigitChars c).length : Int) - 1) := by
      rw [hds]
    rw [hbody]
    by_cases hrest : rest = []
    · rw [if_pos hrest]
      have hlen1 : (natDigitChars c).length = 1 := by
        rw [hds, hrest]
        rfl
      unfold parseDecTail
      rw [span_digits_append [d0] 'E'
        (expSignChars (e + ((natDigitChars c).length : Int) - 1))
        (by intro x hx; rw [List.mem_singleton.mp hx]; exact hd0) (by decide)]
      simp only [parseDecAfterSpan]
      split
      · next ip cs heq =>
        rw [Prod.mk.injEq, List.cons.injEq] at heq
        exact absurd heq.2.1 (by decide)
      · next ip rest₂ heq =>
        rw [Prod.mk.injEq] at heq
        obtain ⟨hip, hrest₂⟩ := heq
        subst hip
        subst hrest₂
        rw [if_neg (List.cons_ne_nil _ _)]
        simp only [parseExpPart_expSignChars]
        rw [show ([d0] : List Char) = natDigitChars c from (hrest ▸ hds).symm,
          digitsToNat_natDigitChars]
        simp only [Option.some.injEq, Dec.mk.injEq]
        refine ⟨trivial, trivial, ?_⟩
        omega
    · rw [if_neg hrest]
      have hlen1 : (natDigitChars c).length = rest.length + 1 := by
        rw [hds]
        rfl
      have hshape : ((d0 :: '.' :: rest) ++
          'E' :: expSignChars (e + ((natDigitChars c).length : Int) - 1) : List Char) =
          [d0] ++ '.' :: (rest ++ 'E' :: expSignChars
            (e + ((natDigitChars c).length : Int) - 1)) := by
        simp
      rw [hshape]
      unfold parseDecTail
      rw [span_digits_append [d0] '.' _
        (by intro x hx; rw [List.mem_singleton.mp hx]; exact hd0) (by decide)]
      simp only [parseDecAfterSpan]
      rw [span_digits_append rest 'E' _ hrestd (by decide)]
      simp only [parseDecFrac]
      rw [if_neg (fun h => List.cons_ne_nil _ _ h.1)]
      simp only [parseExpPart_expSignChars]
      rw [show ([d0] ++ rest : List Char) = natDigitChars c by
          rw [List.singleton_append, ← hds],
        digitsToNat_natDigitChars]
      simp only [Option.some.injEq, Dec.mk.injEq]
      refine ⟨trivial, trivial, ?_⟩
      omega

theorem formatDecBody_head_digit (c : Nat) (e : Int) :
    ∃ d0 l, formatDecBody c e = d0 :: l ∧ d0.isDigit = true := by
  have hlen : 1 ≤ (natDigitChars c).length := List.length_pos.mpr (natDigitChars_ne_nil c)
  obtain ⟨d0, rest, hds⟩ := List.exists_cons_of_ne_nil (natDigitChars_ne_nil c)
  have hd0 : d0.isDigit = true := natDigitChars_digits c d0 (by rw [hds]; simp)
  unfold formatDecBody
  by_cases hfix : e ≤ 0 ∧ -6 ≤ e + ((natDigitChars c).length : Int) - 1
  · rw [if_pos hfix]
    by_cases he : e = 0
    · rw [if_pos he]
      exact ⟨d0, rest, hds, hd0⟩
    · rw [if_neg he]
      by_cases hlt : -e < ((natDigitChars c).length : Int)
      · rw [if_pos hlt]
        have hneg : e < 0 := lt_of_le_of_ne hfix.1 he
        have ht1 : 1 ≤ (((natDigitChars c).length : Int) + e).toNat := by
          omega
        obtain ⟨t, htt⟩ := Nat.exists_eq_succ_of_ne_zero (by omega :
          (((natDigitChars c).length : Int) + e).toNat ≠ 0)
        rw [htt, hds, List.take_succ_cons, List.cons_append]
        exact ⟨d0, _, rfl, hd0⟩
      · rw [if_neg hlt]
        exact ⟨'0', _, rfl, by decide⟩
  · rw [if_neg hfix, hds]
    have hb : (match d0 :: rest with
        | [] => ([] : List Char)
        | c₀ :: r =>
          (if r = [] then [c₀] else c₀ :: '.' :: r) ++
            'E' :: expSignChars (e + (((d0 :: rest).length : Nat) : Int) - 1)) =
        (if rest = [] then [d0] else d0 :: '.' :: rest) ++
          'E' :: expSignChars (e + (((d0 :: rest).length : Nat) : Int) - 1) := rfl
    rw [hb]
    by_cases hrest : rest = []
    · rw [if_pos hrest]
      rw [List.singleton_append]
      exact ⟨d0, _, rfl, hd0⟩
    · rw [if_neg hrest]
      rw [List.cons_append]
      exact ⟨d0, _, rfl, hd0⟩

theorem parseDecChars_formatDecChars (d : Dec) : parseDecChars (formatDecChars d) = some d := by
  obtain ⟨sg, c, e⟩ := d
  obtain ⟨d0, l, hbody, hdigit⟩ := formatDecBody_head_digit c e
  unfold formatDecChars parseDecChars
  simp only
  rcases Bool.eq_false_or_eq_true sg with hsg | hsg <;> subst hsg
  · -- sign prefix '-'
    rw [if_pos rfl, List.singleton_append]
    simp only [parseSignChar]
    exact parseDecTail_formatDecBody true c e
  · rw [if_neg (by simp), List.nil_append]
    obtain ⟨h1, h2⟩ := isDigit_ne_signs hdigit
    rw [hbody, parseSignChar_not_sign l h1 h2, ← hbody]
    exact parseDecTail_formatDecBody false c e

theorem parseDec_formatDec (d : Dec) : parseDec (formatDec d) = some d :=
  parseDecChars_formatDecChars d

/-- C8: `MaybeDecimal` encode/decode round-trips: for text parsing to a
decimal, decoding the encoding restores the identical decimal state (so
it is valid and holds an equal decimal); the invalid state round-trips
to the invalid state; construction from any text is total, with
non-decimal text yielding the invalid state. -/
theorem maybe_decimal_roundtrip (t : String) :
    (MaybeDecimal.decode (MaybeDecimal.encode (MaybeDecimal.ofText t)) =
      MaybeDecimal.ofText t) ∧
    (MaybeDecimal.decode (MaybeDecimal.encode (none : MaybeDecimal)) = (none : MaybeDecimal)) ∧
    ((parseDec t).isNone = true → (MaybeDecimal.ofText t).valid = false) := by
  refine ⟨?_, rfl, ?_⟩
  · unfold MaybeDecimal.ofText
    cases hp : parseDec t with
    | none => rfl
    | some d =>
      show MaybeDecimal.ofText (formatDec d) = some d
      exact parseDec_formatDec d
  · intro h
    unfold MaybeDecimal.ofText MaybeDecimal.valid
    rw [Option.isNone_iff_eq_none.mp h]
    rfl

/-- C8 witness: round trip at `"12.50"`, invalid construction at
`"xyz"`. -/
theorem maybe_decimal_roundtrip_witness :
    MaybeDecimal.decode (MaybeDecimal.encode (MaybeDecimal.ofText "12.50")) =
      MaybeDecimal.ofText "12.50" ∧
    (MaybeDecimal.ofText "xyz").valid = false :=
  ⟨(maybe_decimal_roundtrip "12.50").1,
   (maybe_decimal_roundtrip "xyz").2.2 (by with_unfolding_all decide)⟩
